import Mathlib

/-!
Verification of the storage-staking ledger of the fungible-token contract
(`contracts/ft/src/storage_impl.rs`).

The contract state is shallowly embedded: the `LookupMap<AccountId, Balance>`
of registered accounts becomes an association list with no duplicate keys,
the `u128` total supply becomes a `Nat` (with the one unchecked `u128`
subtraction modelled by explicit wrap-around modulo `2 ^ 128`), and the
blockchain environment (attached deposit, predecessor account, storage byte
cost) becomes an explicit `Env` record.  Panics become `Except` errors and
scheduled `Promise::transfer` calls become an explicit list of transfers
returned next to the new state.
-/

namespace CatchFT

abbrev AccountId := String
abbrev Balance := Nat

/-- `2 ^ 128`, the modulus of the `u128` type used for balances. -/
def U128_MOD : Nat := 2 ^ 128

/-- Wrapping `u128` subtraction, the semantics of the unchecked
`total_supply -= balance` in `internal_storage_unregister`. -/
def u128sub (a b : Nat) : Nat := (a + U128_MOD - b) % U128_MOD

/-- `StorageBalance { total, available }` returned by the storage queries. -/
structure StorageBalance where
  total : Nat
  available : Nat
deriving Repr, DecidableEq

/-- `StorageBalanceBounds { min, max }` returned by `storage_balance_bounds`. -/
structure StorageBalanceBounds where
  min : Nat
  max : Option Nat
deriving Repr, DecidableEq

/-- The token ledger: the `accounts` lookup map and the global total supply. -/
structure Token where
  accounts : List (AccountId × Balance)
  total_supply : Nat
deriving Repr, DecidableEq

/-- The contract state visible to the storage manager. -/
structure Contract where
  token : Token
  account_storage_usage : Nat
deriving Repr, DecidableEq

/-- The blockchain environment of a single call. -/
structure Env where
  attached_deposit : Nat
  predecessor_account_id : AccountId
  storage_byte_cost : Nat
deriving Repr, DecidableEq

/-- One scheduled asynchronous `Promise::transfer`. -/
structure Transfer where
  receiver : AccountId
  amount : Nat
deriving Repr, DecidableEq

/-- The panics of `storage_impl.rs`, as error values. -/
inductive Err where
  | insufficientDeposit
  | missingConfirmationPayment
  | unregisteredCaller
  | excessiveWithdrawal
  | nonZeroBalanceWithoutForce
  | unwrapFailed
deriving Repr, DecidableEq

/-- `LookupMap::get` on the association list. -/
def lookupAcc (id : AccountId) : List (AccountId × Balance) → Option Balance
  | [] => none
  | (k, v) :: rest => if k = id then some v else lookupAcc id rest

/-- `LookupMap::insert` on the association list (overwrite or append). -/
def insertAcc (id : AccountId) (v : Balance) :
    List (AccountId × Balance) → List (AccountId × Balance)
  | [] => [(id, v)]
  | (k, w) :: rest =>
    if k = id then (id, v) :: rest else (k, w) :: insertAcc id v rest

/-- `LookupMap::remove` on the association list. -/
def removeAcc (id : AccountId) :
    List (AccountId × Balance) → List (AccountId × Balance)
  | [] => []
  | (k, w) :: rest =>
    if k = id then removeAcc id rest else (k, w) :: removeAcc id rest

/-- `storage_balance_bounds`: the required storage balance is the fixed
per-account storage usage times the current storage byte cost; `min = max`. -/
def storage_balance_bounds (c : Contract) (env : Env) : StorageBalanceBounds :=
  let required_storage_balance := c.account_storage_usage * env.storage_byte_cost
  { min := required_storage_balance, max := some required_storage_balance }

/-- `internal_storage_balance_of`: `Some {min, 0}` for a registered account,
`None` otherwise. -/
def internal_storage_balance_of (c : Contract) (env : Env)
    (account_id : AccountId) : Option StorageBalance :=
  if (lookupAcc account_id c.token.accounts).isSome then
    some { total := (storage_balance_bounds c env).min, available := 0 }
  else
    none

/-- `storage_balance_of`: public wrapper around `internal_storage_balance_of`. -/
def storage_balance_of (c : Contract) (env : Env) (account_id : AccountId) :
    Option StorageBalance :=
  internal_storage_balance_of c env account_id

/-- `storage_deposit`: register `account_id` (defaulting to the caller) with
balance `0` against the attached deposit, refunding any excess; a re-deposit
refunds the whole attached amount and mutates nothing. -/
def storage_deposit (c : Contract) (env : Env) (account_id : Option AccountId) :
    Except Err (StorageBalance × Contract × List Transfer) :=
  let amount := env.attached_deposit
  let account_id := account_id.getD env.predecessor_account_id
  if (lookupAcc account_id c.token.accounts).isSome then
    let transfers :=
      if 0 < amount then [⟨env.predecessor_account_id, amount⟩] else []
    match internal_storage_balance_of c env account_id with
    | some sb => .ok (sb, c, transfers)
    | none => .error .unwrapFailed
  else
    let min_balance := (storage_balance_bounds c env).min
    if amount < min_balance then
      .error .insufficientDeposit
    else
      let c' : Contract :=
        { c with token :=
          { c.token with accounts := insertAcc account_id 0 c.token.accounts } }
      let refund := amount - min_balance
      let transfers :=
        if 0 < refund then [⟨env.predecessor_account_id, refund⟩] else []
      match internal_storage_balance_of c' env account_id with
      | some sb => .ok (sb, c', transfers)
      | none => .error .unwrapFailed

/-- `storage_withdraw`: requires exactly one yoctoNEAR attached; rejects any
strictly positive requested amount, otherwise returns the current balance. -/
def storage_withdraw (c : Contract) (env : Env) (amount : Option Nat) :
    Except Err (StorageBalance × Contract × List Transfer) :=
  if env.attached_deposit = 1 then
    match internal_storage_balance_of c env env.predecessor_account_id with
    | some storage_balance =>
      match amount with
      | some a =>
        if 0 < a then .error .excessiveWithdrawal
        else .ok (storage_balance, c, [])
      | none => .ok (storage_balance, c, [])
    | none => .error .unregisteredCaller
  else
    .error .missingConfirmationPayment

/-- `internal_storage_unregister`: requires one yoctoNEAR; removes the
caller's account when its balance is zero or `force` is set, burning the
balance from the total supply and scheduling a refund of `min + 1`. -/
def internal_storage_unregister (c : Contract) (env : Env)
    (force : Option Bool) :
    Except Err (Option (AccountId × Balance) × Contract × List Transfer) :=
  if env.attached_deposit = 1 then
    let account_id := env.predecessor_account_id
    let forceFlag := force.getD false
    match lookupAcc account_id c.token.accounts with
    | some balance =>
      if balance = 0 ∨ forceFlag = true then
        let c' : Contract :=
          { c with token :=
            { accounts := removeAcc account_id c.token.accounts,
              total_supply := u128sub c.token.total_supply balance } }
        .ok (some (account_id, balance), c',
          [⟨account_id, (storage_balance_bounds c' env).min + 1⟩])
      else
        .error .nonZeroBalanceWithoutForce
    | none => .ok (none, c, [])
  else
    .error .missingConfirmationPayment

/-- `storage_unregister`: public wrapper, returns whether an account was
removed. -/
def storage_unregister (c : Contract) (env : Env) (force : Option Bool) :
    Except Err (Bool × Contract × List Transfer) :=
  match internal_storage_unregister c env force with
  | .ok (r, c', tr) => .ok (r.isSome, c', tr)
  | .error e => .error e

/-- Transaction semantics of the surrounding runtime: a panic rolls the state
back and schedules nothing; a success commits the new state and its
transfers. -/
def commit {α : Type} (c : Contract)
    (r : Except Err (α × Contract × List Transfer)) :
    Contract × List Transfer :=
  match r with
  | .ok (_, c', tr) => (c', tr)
  | .error _ => (c, [])

/-- One committed ledger transaction (any of the three mutating entry
points, with any environment and arguments). -/
inductive Step : Contract → Contract → Prop where
  | deposit (c : Contract) (env : Env) (acct : Option AccountId) :
      Step c (commit c (storage_deposit c env acct)).1
  | withdraw (c : Contract) (env : Env) (amount : Option Nat) :
      Step c (commit c (storage_withdraw c env amount)).1
  | unregister (c : Contract) (env : Env) (force : Option Bool) :
      Step c (commit c (storage_unregister c env force)).1

/-- States reachable from a given state by ledger transactions. -/
inductive Reachable : Contract → Contract → Prop where
  | refl (c : Contract) : Reachable c c
  | tail {c₀ c₁ c₂ : Contract} :
      Reachable c₀ c₁ → Step c₁ c₂ → Reachable c₀ c₂

/-- The keys of the accounts map are pairwise distinct. -/
def keysNodup (l : List (AccountId × Balance)) : Prop :=
  (l.map Prod.fst).Nodup

/-- The sum of all registered balances. -/
def sumBalances (l : List (AccountId × Balance)) : Nat :=
  (l.map Prod.snd).sum

/-- The supply-conservation invariant: a well-formed accounts map whose
balances sum to the (in-range) global total supply. -/
def SupplyInv (c : Contract) : Prop :=
  keysNodup c.token.accounts ∧
  c.token.total_supply = sumBalances c.token.accounts ∧
  c.token.total_supply < U128_MOD

/-! ### Lemmas about the association-list map operations -/

theorem lookupAcc_eq_none_iff (id : AccountId) (l : List (AccountId × Balance)) :
    lookupAcc id l = none ↔ id ∉ l.map Prod.fst := by
  induction l with
  | nil => simp [lookupAcc]
  | cons p rest ih =>
    obtain ⟨k, v⟩ := p
    by_cases hk : k = id
    · subst hk
      simp [lookupAcc]
    · simp [lookupAcc, hk, ih, Ne.symm hk]

theorem insertAcc_of_not_mem (id : AccountId) (v : Balance)
    (l : List (AccountId × Balance)) (h : lookupAcc id l = none) :
    insertAcc id v l = l ++ [(id, v)] := by
  induction l with
  | nil => simp [insertAcc]
  | cons p rest ih =>
    obtain ⟨k, w⟩ := p
    simp only [lookupAcc] at h
    by_cases hk : k = id
    · simp [hk] at h
    · simp only [insertAcc, if_neg hk, List.cons_append, List.cons.injEq, true_and]
      exact ih (by simpa [hk] using h)

theorem lookupAcc_removeAcc_self (id : AccountId)
    (l : List (AccountId × Balance)) :
    lookupAcc id (removeAcc id l) = none := by
  induction l with
  | nil => simp [removeAcc, lookupAcc]
  | cons p rest ih =>
    obtain ⟨k, v⟩ := p
    by_cases hk : k = id
    · simpa [removeAcc, hk] using ih
    · simpa [removeAcc, hk, lookupAcc] using ih

theorem removeAcc_of_not_mem (id : AccountId) (l : List (AccountId × Balance))
    (h : id ∉ l.map Prod.fst) : removeAcc id l = l := by
  induction l with
  | nil => simp [removeAcc]
  | cons p rest ih =>
    obtain ⟨k, v⟩ := p
    simp only [List.map_cons, List.mem_cons] at h
    push_neg at h
    simp [removeAcc, Ne.symm h.1, ih h.2]

theorem keys_removeAcc_sublist (id : AccountId)
    (l : List (AccountId × Balance)) :
    ((removeAcc id l).map Prod.fst).Sublist (l.map Prod.fst) := by
  induction l with
  | nil => simp [removeAcc]
  | cons p rest ih =>
    obtain ⟨k, v⟩ := p
    by_cases hk : k = id
    · simpa [removeAcc, hk] using ih.trans (List.sublist_cons_self _ _)
    · simpa [removeAcc, hk] using ih.cons₂ k

theorem keysNodup_removeAcc (id : AccountId) (l : List (AccountId × Balance))
    (h : keysNodup l) : keysNodup (removeAcc id l) :=
  (keys_removeAcc_sublist id l).nodup h

theorem sumBalances_removeAcc (id : AccountId) (b : Balance)
    (l : List (AccountId × Balance)) (hnd : keysNodup l)
    (hl : lookupAcc id l = some b) :
    sumBalances (removeAcc id l) + b = sumBalances l := by
  induction l with
  | nil => simp [lookupAcc] at hl
  | cons p rest ih =>
    obtain ⟨k, v⟩ := p
    simp only [keysNodup, List.map_cons, List.nodup_cons] at hnd
    by_cases hk : k = id
    · subst hk
      have hv : v = b := by simpa [lookupAcc] using hl
      subst hv
      rw [removeAcc, if_pos rfl, removeAcc_of_not_mem k rest hnd.1]
      simp [sumBalances, Nat.add_comm]
    · simp only [lookupAcc, if_neg hk] at hl
      have := ih hnd.2 hl
      simp only [removeAcc, if_neg hk, sumBalances, List.map_cons,
        List.sum_cons] at this ⊢
      omega

theorem lookupAcc_le_sumBalances (id : AccountId) (b : Balance)
    (l : List (AccountId × Balance)) (hnd : keysNodup l)
    (hl : lookupAcc id l = some b) : b ≤ sumBalances l := by
  rw [← sumBalances_removeAcc id b l hnd hl]
  exact Nat.le_add_left _ _

theorem u128sub_eq_sub (a b : Nat) (hle : b ≤ a) (ha : a < U128_MOD) :
    u128sub a b = a - b := by
  unfold u128sub
  have h1 : a + U128_MOD - b = (a - b) + U128_MOD := by omega
  rw [h1, Nat.add_mod_right, Nat.mod_eq_of_lt (by omega)]

theorem lookupAcc_insertAcc_self (id : AccountId) (v : Balance)
    (l : List (AccountId × Balance)) :
    lookupAcc id (insertAcc id v l) = some v := by
  induction l with
  | nil => simp [insertAcc, lookupAcc]
  | cons p rest ih =>
    obtain ⟨k, w⟩ := p
    by_cases hk : k = id
    · simp [insertAcc, hk, lookupAcc]
    · simpa [insertAcc, hk, lookupAcc] using ih

/-! ### Concrete states used by the witnesses -/

/-- A state with one registered account `alice` holding balance `5`. -/
def cRegW : Contract := { token := { accounts := [("alice", 5)], total_supply := 5 },
                          account_storage_usage := 10 }

/-- A state with no registered accounts. -/
def cEmptyW : Contract := { token := { accounts := [], total_supply := 0 },
                            account_storage_usage := 10 }

/-- An environment attaching the one-yoctoNEAR confirmation payment. -/
def envW : Env := { attached_deposit := 1, predecessor_account_id := "alice",
                    storage_byte_cost := 3 }

/-! ### Claim theorems -/

/-- C1 (bounds pinning): in every contract state, `storage_balance_of` of a
registered account id is `Some` of a balance whose `total` is
`storage_balance_bounds().min` and whose `available` is `0`, and
`storage_balance_of` of an unregistered id is `None`. -/
theorem bounds_pinning (c : Contract) (env : Env) (id : AccountId) :
    ((lookupAcc id c.token.accounts).isSome →
      storage_balance_of c env id =
        some ⟨(storage_balance_bounds c env).min, 0⟩) ∧
    (lookupAcc id c.token.accounts = none →
      storage_balance_of c env id = none) := by
  constructor <;> intro h <;>
    simp [storage_balance_of, internal_storage_balance_of, h]

theorem bounds_pinning_witness :
    storage_balance_of cRegW envW "alice" = some ⟨30, 0⟩ ∧
    storage_balance_of cRegW envW "bob" = none :=
  ⟨(bounds_pinning cRegW envW "alice").1 (by decide),
   (bounds_pinning cRegW envW "bob").2 (by decide)⟩

/-- C9 (unknown-account unregistration): with the confirmation payment
attached, `storage_unregister` by an unregistered caller returns `false`,
leaves the state unchanged and schedules no transfer. -/
theorem unregister_unknown_noop (c : Contract) (env : Env)
    (force : Option Bool) (hdep : env.attached_deposit = 1)
    (hreg : lookupAcc env.predecessor_account_id c.token.accounts = none) :
    storage_unregister c env force = .ok (false, c, []) := by
  simp [storage_unregister, internal_storage_unregister, hdep, hreg]

theorem unregister_unknown_noop_witness :
    storage_unregister cEmptyW envW none = .ok (false, cEmptyW, []) :=
  unregister_unknown_noop cEmptyW envW none rfl rfl

/-- C4 (unregistration atomicity on refusal): with the confirmation payment
attached, a registered caller with positive balance and `force` absent or
`Some false` gets the `NonZeroBalanceWithoutForce` panic, and the committed
state is unchanged with no scheduled transfer. -/
theorem unregister_refuse_nonzero (c : Contract) (env : Env)
    (force : Option Bool) (B : Balance) (hdep : env.attached_deposit = 1)
    (hreg : lookupAcc env.predecessor_account_id c.token.accounts = some B)
    (hB : 0 < B) (hforce : force = none ∨ force = some false) :
    storage_unregister c env force = .error .nonZeroBalanceWithoutForce ∧
    commit c (storage_unregister c env force) = (c, []) := by
  have hcond : ¬(B = 0 ∨ force.getD false = true) := by
    rcases hforce with h | h <;> subst h <;> simp <;>
      exact Nat.pos_iff_ne_zero.mp hB
  refine ⟨?_, ?_⟩ <;>
    simp [storage_unregister, internal_storage_unregister, commit, hdep, hreg,
      hcond]

theorem unregister_refuse_nonzero_witness :
    storage_unregister cRegW envW none = .error .nonZeroBalanceWithoutForce ∧
    commit cRegW (storage_unregister cRegW envW none) = (cRegW, []) :=
  unregister_refuse_nonzero cRegW envW none 5 rfl (by decide) (by decide)
    (Or.inl rfl)

/-- C3 (forced/empty unregistration): with the confirmation payment attached,
a registered caller with balance `B` such that `B = 0` or `force = Some true`
is removed, the total supply is decremented by exactly `B`, exactly one
asynchronous transfer of `storage_balance_bounds().min + 1` to the caller is
scheduled, and the call returns `true`. -/
theorem unregister_force_spec (c : Contract) (env : Env) (force : Option Bool)
    (B : Balance) (hdep : env.attached_deposit = 1)
    (hreg : lookupAcc env.predecessor_account_id c.token.accounts = some B)
    (hBF : B = 0 ∨ force = some true) (hle : B ≤ c.token.total_supply)
    (hlt : c.token.total_supply < U128_MOD) :
    storage_unregister c env force =
      .ok (true,
        { c with token :=
          { accounts := removeAcc env.predecessor_account_id c.token.accounts,
            total_supply := c.token.total_supply - B } },
        [⟨env.predecessor_account_id,
          (storage_balance_bounds c env).min + 1⟩]) ∧
    lookupAcc env.predecessor_account_id
      (removeAcc env.predecessor_account_id c.token.accounts) = none := by
  have hcond : B = 0 ∨ force.getD false = true := by
    rcases hBF with h | h
    · exact Or.inl h
    · exact Or.inr (by simp [h])
  have hsub := u128sub_eq_sub c.token.total_supply B hle hlt
  refine ⟨?_, lookupAcc_removeAcc_self _ _⟩
  simp [storage_unregister, internal_storage_unregister, hdep, hreg, hcond,
    hsub, storage_balance_bounds]

theorem unregister_force_spec_witness :
    storage_unregister cRegW envW (some true) =
      .ok (true,
        { cRegW with token :=
          { accounts := removeAcc "alice" cRegW.token.accounts,
            total_supply := cRegW.token.total_supply - 5 } },
        [⟨"alice", (storage_balance_bounds cRegW envW).min + 1⟩]) ∧
    lookupAcc "alice" (removeAcc "alice" cRegW.token.accounts) = none :=
  unregister_force_spec cRegW envW (some true) 5 rfl (by decide)
    (Or.inr rfl) (by decide) (by decide)

/-- C10 (burn subtraction is safe): whenever the removed account's balance is
at most the global total supply, the removal branch of
`internal_storage_unregister` is total (it returns `Some`) and the wrapping
`u128` subtraction `total_supply -= balance` does not underflow: the new
supply plus the burnt balance equals the old supply. -/
theorem unregister_burn_no_underflow (c : Contract) (env : Env)
    (force : Option Bool) (B : Balance) (hdep : env.attached_deposit = 1)
    (hreg : lookupAcc env.predecessor_account_id c.token.accounts = some B)
    (hBF : B = 0 ∨ force = some true) (hle : B ≤ c.token.total_supply)
    (hlt : c.token.total_supply < U128_MOD) :
    (∃ c' tr, internal_storage_unregister c env force =
      .ok (some (env.predecessor_account_id, B), c', tr)) ∧
    u128sub c.token.total_supply B + B = c.token.total_supply := by
  have hcond : B = 0 ∨ force.getD false = true := by
    rcases hBF with h | h
    · exact Or.inl h
    · exact Or.inr (by simp [h])
  constructor
  · exact ⟨{ c with token :=
        { accounts := removeAcc env.predecessor_account_id c.token.accounts,
          total_supply := u128sub c.token.total_supply B } },
      [⟨env.predecessor_account_id,
        c.account_storage_usage * env.storage_byte_cost + 1⟩],
      by simp [internal_storage_unregister, hdep, hreg, hcond,
        storage_balance_bounds]⟩
  · rw [u128sub_eq_sub c.token.total_supply B hle hlt]
    exact Nat.sub_add_cancel hle

theorem unregister_burn_no_underflow_witness :
    (∃ c' tr, internal_storage_unregister cRegW envW (some true) =
      .ok (some ("alice", 5), c', tr)) ∧
    u128sub cRegW.token.total_supply 5 + 5 = cRegW.token.total_supply :=
  unregister_burn_no_underflow cRegW envW (some true) 5 rfl (by decide)
    (Or.inr rfl) (by decide) (by decide)

/-- C8 (withdrawal raises-iff): with the confirmation payment attached,
`storage_withdraw` fails with `UnregisteredCaller` iff the caller has no
account record; fails with `ExcessiveWithdrawal` iff the caller is registered
and a strictly positive amount is requested; and on `None` or `Some 0` with a
registered caller it returns the caller's current storage balance with no
state change and no transfer. -/
theorem withdraw_raises_iff (c : Contract) (env : Env) (amount : Option Nat)
    (hdep : env.attached_deposit = 1) :
    (storage_withdraw c env amount = .error .unregisteredCaller ↔
      lookupAcc env.predecessor_account_id c.token.accounts = none) ∧
    (storage_withdraw c env amount = .error .excessiveWithdrawal ↔
      ((lookupAcc env.predecessor_account_id c.token.accounts).isSome = true ∧
        ∃ a, amount = some a ∧ 0 < a)) ∧
    ((amount = none ∨ amount = some 0) →
      (lookupAcc env.predecessor_account_id c.token.accounts).isSome = true →
      storage_withdraw c env amount =
        .ok (⟨(storage_balance_bounds c env).min, 0⟩, c, []) ∧
      storage_balance_of c env env.predecessor_account_id =
        some ⟨(storage_balance_bounds c env).min, 0⟩) := by
  rcases hl : lookupAcc env.predecessor_account_id c.token.accounts with _ | B
  · refine ⟨by simp [storage_withdraw, internal_storage_balance_of, hdep, hl],
      ?_, ?_⟩
    · simp only [storage_withdraw, internal_storage_balance_of, hl]
      simp [hdep]
    · intro _ hs
      simp at hs
  · have hbal : internal_storage_balance_of c env env.predecessor_account_id =
        some ⟨(storage_balance_bounds c env).min, 0⟩ := by
      simp [internal_storage_balance_of, hl]
    refine ⟨?_, ?_, ?_⟩
    · simp only [storage_withdraw, hbal, hdep, if_pos]
      rcases amount with _ | a
      · simp
      · by_cases ha : 0 < a <;> simp [ha, hl]
    · simp only [storage_withdraw, hbal, hdep, if_pos]
      rcases amount with _ | a
      · simp
      · by_cases ha : 0 < a <;> simp [ha, hl]
    · rintro (ham | ham) _ <;> subst ham <;>
        simp [storage_withdraw, storage_balance_of, hbal, hdep]

theorem withdraw_raises_iff_witness :
    (storage_withdraw cRegW envW (some 1) = .error .unregisteredCaller ↔
      lookupAcc "alice" cRegW.token.accounts = none) ∧
    (storage_withdraw cRegW envW (some 1) = .error .excessiveWithdrawal ↔
      ((lookupAcc "alice" cRegW.token.accounts).isSome = true ∧
        ∃ a, (some 1 : Option Nat) = some a ∧ 0 < a)) ∧
    (((some 1 : Option Nat) = none ∨ (some 1 : Option Nat) = some 0) →
      (lookupAcc "alice" cRegW.token.accounts).isSome = true →
      storage_withdraw cRegW envW (some 1) =
        .ok (⟨(storage_balance_bounds cRegW envW).min, 0⟩, cRegW, []) ∧
      storage_balance_of cRegW envW "alice" =
        some ⟨(storage_balance_bounds cRegW envW).min, 0⟩) :=
  withdraw_raises_iff cRegW envW (some 1) rfl

/-- C5 (deposit minimum enforcement): for an unregistered target account,
`storage_deposit` with attached payment strictly below
`storage_balance_bounds().min` fails with `InsufficientDeposit` and commits
no change and no transfer; with payment exactly the minimum it succeeds,
creating the account with balance `0` and scheduling no refund. -/
theorem deposit_minimum_enforcement (c : Contract) (env₁ env₂ : Env)
    (acct₁ acct₂ : Option AccountId) (id : AccountId)
    (hid₁ : acct₁.getD env₁.predecessor_account_id = id)
    (hid₂ : acct₂.getD env₂.predecessor_account_id = id)
    (hl : lookupAcc id c.token.accounts = none)
    (hlt : env₁.attached_deposit < (storage_balance_bounds c env₁).min)
    (heq : env₂.attached_deposit = (storage_balance_bounds c env₂).min) :
    storage_deposit c env₁ acct₁ = .error .insufficientDeposit ∧
    commit c (storage_deposit c env₁ acct₁) = (c, []) ∧
    storage_deposit c env₂ acct₂ =
      .ok (⟨(storage_balance_bounds c env₂).min, 0⟩,
        { c with token :=
          { c.token with accounts := insertAcc id 0 c.token.accounts } },
        []) ∧
    lookupAcc id (insertAcc id 0 c.token.accounts) = some 0 := by
  refine ⟨?_, ?_, ?_, lookupAcc_insertAcc_self id 0 c.token.accounts⟩
  · simp [storage_deposit, hid₁, hl, hlt]
  · simp [commit, storage_deposit, hid₁, hl, hlt]
  · simp [storage_deposit, hid₂, hl, heq, internal_storage_balance_of,
      lookupAcc_insertAcc_self, storage_balance_bounds]

theorem deposit_minimum_enforcement_witness :
    storage_deposit cEmptyW ⟨29, "bob", 3⟩ (some "carol") =
      .error .insufficientDeposit ∧
    commit cEmptyW (storage_deposit cEmptyW ⟨29, "bob", 3⟩ (some "carol")) =
      (cEmptyW, []) ∧
    storage_deposit cEmptyW ⟨30, "bob", 3⟩ (some "carol") =
      .ok (⟨(storage_balance_bounds cEmptyW ⟨30, "bob", 3⟩).min, 0⟩,
        { cEmptyW with token :=
          { cEmptyW.token with
            accounts := insertAcc "carol" 0 cEmptyW.token.accounts } },
        []) ∧
    lookupAcc "carol" (insertAcc "carol" 0 cEmptyW.token.accounts) = some 0 :=
  deposit_minimum_enforcement cEmptyW ⟨29, "bob", 3⟩ ⟨30, "bob", 3⟩
    (some "carol") (some "carol") "carol" rfl rfl rfl (by decide) (by decide)

/-- C6 (deposit excess refund): for an unregistered target account and any
payment at least `storage_balance_bounds().min`, `storage_deposit` creates
the account with balance `0`, schedules a refund of exactly
`payment - min` to the caller when that difference is positive, and returns
`{total := min, available := 0}`. -/
theorem deposit_excess_refund (c : Contract) (env : Env)
    (acct : Option AccountId) (id : AccountId)
    (hid : acct.getD env.predecessor_account_id = id)
    (hl : lookupAcc id c.token.accounts = none)
    (hge : (storage_balance_bounds c env).min ≤ env.attached_deposit) :
    storage_deposit c env acct =
      .ok (⟨(storage_balance_bounds c env).min, 0⟩,
        { c with token :=
          { c.token with accounts := insertAcc id 0 c.token.accounts } },
        if 0 < env.attached_deposit - (storage_balance_bounds c env).min then
          [⟨env.predecessor_account_id,
            env.attached_deposit - (storage_balance_bounds c env).min⟩]
        else []) ∧
    lookupAcc id (insertAcc id 0 c.token.accounts) = some 0 := by
  have hge' : c.account_storage_usage * env.storage_byte_cost ≤
      env.attached_deposit := by
    simpa [storage_balance_bounds] using hge
  refine ⟨?_, lookupAcc_insertAcc_self id 0 c.token.accounts⟩
  simp [storage_deposit, hid, hl, Nat.not_lt.mpr hge',
    internal_storage_balance_of, lookupAcc_insertAcc_self,
    storage_balance_bounds]

theorem deposit_excess_refund_witness :
    storage_deposit cEmptyW ⟨530, "bob", 3⟩ (some "carol") =
      .ok (⟨(storage_balance_bounds cEmptyW ⟨530, "bob", 3⟩).min, 0⟩,
        { cEmptyW with token :=
          { cEmptyW.token with
            accounts := insertAcc "carol" 0 cEmptyW.token.accounts } },
        if 0 < 530 - (storage_balance_bounds cEmptyW ⟨530, "bob", 3⟩).min then
          [⟨"bob", 530 - (storage_balance_bounds cEmptyW ⟨530, "bob", 3⟩).min⟩]
        else []) ∧
    lookupAcc "carol" (insertAcc "carol" 0 cEmptyW.token.accounts) = some 0 :=
  deposit_excess_refund cEmptyW ⟨530, "bob", 3⟩ (some "carol") "carol" rfl rfl
    (by decide)

/-- C7 (idempotent re-deposit): for an already-registered target account,
`storage_deposit` leaves the state unchanged, refunds the entire attached
payment to the caller, and returns the same `{total, available}` that
`storage_balance_of` reported before the call. -/
theorem deposit_idempotent (c : Contract) (env : Env)
    (acct : Option AccountId) (id : AccountId) (B : Balance)
    (hid : acct.getD env.predecessor_account_id = id)
    (hl : lookupAcc id c.token.accounts = some B) :
    storage_deposit c env acct =
      .ok (⟨(storage_balance_bounds c env).min, 0⟩, c,
        if 0 < env.attached_deposit then
          [⟨env.predecessor_account_id, env.attached_deposit⟩]
        else []) ∧
    storage_balance_of c env id =
      some ⟨(storage_balance_bounds c env).min, 0⟩ := by
  constructor <;>
    simp [storage_deposit, storage_balance_of, hid, hl,
      internal_storage_balance_of]

theorem deposit_idempotent_witness :
    storage_deposit cRegW envW none =
      .ok (⟨(storage_balance_bounds cRegW envW).min, 0⟩, cRegW,
        if 0 < envW.attached_deposit then
          [⟨"alice", envW.attached_deposit⟩]
        else []) ∧
    storage_balance_of cRegW envW "alice" =
      some ⟨(storage_balance_bounds cRegW envW).min, 0⟩ :=
  deposit_idempotent cRegW envW none "alice" 5 rfl (by decide)

/-! ### Supply conservation -/

theorem supplyInv_insert_zero (c : Contract) (id : AccountId)
    (hl : lookupAcc id c.token.accounts = none) (h : SupplyInv c) :
    SupplyInv { c with token :=
      { c.token with accounts := insertAcc id 0 c.token.accounts } } := by
  obtain ⟨hnd, hsum, hlt⟩ := h
  refine ⟨?_, ?_, hlt⟩
  · show (List.map Prod.fst (insertAcc id 0 c.token.accounts)).Nodup
    rw [insertAcc_of_not_mem id 0 _ hl, List.map_append]
    rw [List.nodup_append]
    refine ⟨hnd, by simp, fun a ha hb => ?_⟩
    simp only [List.map_cons, List.map_nil, List.mem_singleton] at hb
    subst hb
    exact (lookupAcc_eq_none_iff a _).mp hl ha
  · show c.token.total_supply = sumBalances (insertAcc id 0 c.token.accounts)
    rw [insertAcc_of_not_mem id 0 _ hl]
    simp [sumBalances, hsum]

theorem supplyInv_remove (c : Contract) (id : AccountId) (B : Balance)
    (hl : lookupAcc id c.token.accounts = some B) (h : SupplyInv c) :
    SupplyInv { c with token :=
      { accounts := removeAcc id c.token.accounts,
        total_supply := u128sub c.token.total_supply B } } := by
  obtain ⟨hnd, hsum, hlt⟩ := h
  have hble : B ≤ c.token.total_supply :=
    hsum ▸ lookupAcc_le_sumBalances id B _ hnd hl
  have hsub : u128sub c.token.total_supply B = c.token.total_supply - B :=
    u128sub_eq_sub _ _ hble hlt
  have hrs := sumBalances_removeAcc id B _ hnd hl
  refine ⟨keysNodup_removeAcc id _ hnd, ?_, ?_⟩
  · show u128sub c.token.total_supply B =
      sumBalances (removeAcc id c.token.accounts)
    rw [hsub, hsum]
    exact Nat.sub_eq_of_eq_add hrs.symm
  · show u128sub c.token.total_supply B < U128_MOD
    rw [hsub]
    exact lt_of_le_of_lt (Nat.sub_le _ _) hlt

theorem supplyInv_commit_deposit (c : Contract) (env : Env)
    (acct : Option AccountId) (h : SupplyInv c) :
    SupplyInv (commit c (storage_deposit c env acct)).1 := by
  rcases hl : lookupAcc (acct.getD env.predecessor_account_id)
      c.token.accounts with _ | B
  · by_cases hamt : env.attached_deposit < (storage_balance_bounds c env).min
    · simpa [storage_deposit, commit, hl, hamt] using h
    · have hc : (commit c (storage_deposit c env acct)).1 =
          { c with token := { c.token with
              accounts := insertAcc (acct.getD env.predecessor_account_id) 0 c.token.accounts } } := by
        simp [storage_deposit, commit, hl, hamt, internal_storage_balance_of,
          lookupAcc_insertAcc_self]
      rw [hc]
      exact supplyInv_insert_zero c _ hl h
  · have hc : (commit c (storage_deposit c env acct)).1 = c := by
      simp [storage_deposit, commit, hl, internal_storage_balance_of]
    rw [hc]
    exact h

theorem commit_withdraw_fst (c : Contract) (env : Env) (amount : Option Nat) :
    (commit c (storage_withdraw c env amount)).1 = c := by
  by_cases hdep : env.attached_deposit = 1
  · rcases hl : lookupAcc env.predecessor_account_id c.token.accounts with _ | B
    · simp [storage_withdraw, commit, hdep, internal_storage_balance_of, hl]
    · rcases amount with _ | a
      · simp [storage_withdraw, commit, hdep, internal_storage_balance_of, hl]
      · by_cases ha : 0 < a <;>
          simp [storage_withdraw, commit, hdep, internal_storage_balance_of,
            hl, ha]
  · simp [storage_withdraw, commit, hdep]

theorem supplyInv_commit_unregister (c : Contract) (env : Env)
    (force : Option Bool) (h : SupplyInv c) :
    SupplyInv (commit c (storage_unregister c env force)).1 := by
  by_cases hdep : env.attached_deposit = 1
  · rcases hl : lookupAcc env.predecessor_account_id c.token.accounts with _ | B
    · simpa [storage_unregister, internal_storage_unregister, commit, hdep,
        hl] using h
    · by_cases hcond : B = 0 ∨ force.getD false = true
      · have hc : (commit c (storage_unregister c env force)).1 =
            { c with token :=
              { accounts := removeAcc env.predecessor_account_id
                  c.token.accounts,
                total_supply := u128sub c.token.total_supply B } } := by
          simp [storage_unregister, internal_storage_unregister, commit, hdep,
            hl, hcond]
        rw [hc]
        exact supplyInv_remove c _ B hl h
      · simpa [storage_unregister, internal_storage_unregister, commit, hdep,
          hl, hcond] using h
  · simpa [storage_unregister, internal_storage_unregister, commit, hdep]
      using h

theorem supplyInv_step {c c' : Contract} (hs : Step c c') (h : SupplyInv c) :
    SupplyInv c' := by
  cases hs with
  | deposit env acct => exact supplyInv_commit_deposit c env acct h
  | withdraw env amount =>
    rw [commit_withdraw_fst c env amount]
    exact h
  | unregister env force => exact supplyInv_commit_unregister c env force h

/-- C2 (supply conservation): in every state reachable by the ledger
operations from a well-formed state whose total supply equals the sum of the
registered balances, the global total supply still equals the sum of the
balances of all registered accounts — `storage_deposit` inserts a fresh
account with balance `0` and `storage_unregister` removes the account's
balance and decrements the supply by exactly that balance in the same step,
so no committed transaction breaks the equality. -/
theorem supply_conservation (c₀ c : Contract) (h₀ : SupplyInv c₀)
    (hr : Reachable c₀ c) :
    c.token.total_supply = sumBalances c.token.accounts := by
  have hinv : SupplyInv c := by
    induction hr with
    | refl => exact h₀
    | tail hr hs ih => exact supplyInv_step hs ih
  exact hinv.2.1

/-- An environment attaching exactly the minimum storage deposit. -/
def envDepW : Env := { attached_deposit := 30, predecessor_account_id := "bob",
                       storage_byte_cost := 3 }

theorem supply_conservation_witness :
    (commit cEmptyW
        (storage_deposit cEmptyW envDepW (some "alice"))).1.token.total_supply
      = sumBalances (commit cEmptyW
          (storage_deposit cEmptyW envDepW (some "alice"))).1.token.accounts :=
  supply_conservation cEmptyW _
    ⟨List.nodup_nil, rfl, by norm_num [cEmptyW, U128_MOD]⟩
    (Reachable.tail (Reachable.refl cEmptyW)
      (Step.deposit cEmptyW envDepW (some "alice")))

end CatchFT
